import Mathlib

/-!
# BreakOnProcess.js — a shallow embedding

The script `src/js/BreakOnProcess.js` runs inside a kernel debugger.  It has
three functions of interest:

* `breakOnProcess` arms a conditional breakpoint on `nt!NtCreateUserProcess`;
* `handleProcessCreation` is the condition of that breakpoint (first stage);
* `handleProcessCreated` is the command of the chained one-shot breakpoint
  (second stage).

JavaScript strings are modelled as lists of characters, the JavaScript engine
as its upper-case mapping, the debugger host as a record of the values the
script reads from it, and the two side effects of the script (`log` and
`execute`) as the lists of lines written and of commands executed, in order.
A thrown JavaScript exception is an `Except.error`.
-/

namespace BreakOnProcess

/-! ## JavaScript strings and the built-ins the script calls -/

/-- A JavaScript string. -/
abbrev Str := List Char

/-- The path separator `"\\"` of line 24. -/
def backslash : Char := Char.ofNat 92

/-- The double quote that the template literals of lines 49, 92 and 94 contain. -/
def dquote : Char := Char.ofNat 34

/-- The JavaScript engine, as far as the script depends on it: the case
mapping behind `String.prototype.toUpperCase`.  The mapping is the one of
Unicode and is not fixed here; it replaces each character by its upper-case
form, which can be several characters long (`ß` becomes `SS`).  What is fixed
is its value on Basic Latin. -/
structure Runtime where
  /-- The upper-case form of one character. -/
  upper : Char → Str
  /-- On Basic Latin `a`..`z` become `A`..`Z` and nothing else changes. -/
  upper_ascii : ∀ c : Char, c.toNat < 128 → upper c = [c.toUpper]

/-- The built-in `String.prototype.toUpperCase`: every character is replaced
by its upper-case form. -/
def toUpperCase (js : Runtime) (s : Str) : Str := s.flatMap js.upper

/-- Resolution of one index argument of `slice` against a string of length
`len`: a negative index counts from the end, and the result is clamped to
`0..len`. -/
def sliceIndex (len : Nat) (i : Int) : Nat :=
  if i < 0 then (Int.ofNat len + i).toNat else min i.toNat len

/-- The built-in `String.prototype.slice(start, end)`. -/
def slice (s : Str) (start stop : Int) : Str :=
  let first := sliceIndex s.length start
  let last := sliceIndex s.length stop
  (s.drop first).take (last - first)

/-- The built-in `String.prototype.split(sep)` for a separator of one character.  The
result is never empty: the empty string splits into one empty piece. -/
def split : Str → Char → List Str
  | [], _ => [[]]
  | c :: cs, sep =>
    if c = sep then [] :: split cs sep
    else
      match split cs sep with
      | [] => [[c]]
      | piece :: pieces => (c :: piece) :: pieces

/-- Whether `pat` is an initial segment of `s`. -/
def startsWith : Str → Str → Bool
  | _, [] => true
  | [], _ :: _ => false
  | c :: cs, p :: ps => c == p && startsWith cs ps

/-- The built-in `String.prototype.includes(pat)`: does `pat` occur in `s` at some position. -/
def includes : Str → Str → Bool
  | [], pat => startsWith [] pat
  | c :: cs, pat => startsWith (c :: cs) pat || includes cs pat

/-- JavaScript truthiness of an optional string argument: `undefined` and the
empty string are falsy, every other string is truthy (lines 32 and 93). -/
def truthy : Option Str → Bool
  | none => false
  | some s => !s.isEmpty

/-! ## The debugger host -/

/-- The `_RTL_USER_PROCESS_PARAMETERS` fields the script reads, each as the
text that `toString()` yields. -/
structure ProcessParameters where
  ImagePathName : Str
  CommandLine : Str

/-- The state of the debugger host at a breakpoint hit, as far as the script
reads it.  The registers, the memory words, the typed structures and the
stack frames the script asks for are there at such a hit, so these reads are
total; the handle table is partial, a closed or stale handle not being in
it, and so is the expression evaluator, which is handed a text. -/
structure Host where
  /-- Register `rsp` of the current thread. -/
  rsp : Nat
  /-- Register `rcx` of the current thread. -/
  rcx : Nat
  /-- Register `rdx` of the current thread. -/
  rdx : Nat
  /-- The eight-byte value stored at an address. -/
  memory : Nat → Nat
  /-- The typed object `_RTL_USER_PROCESS_PARAMETERS` at an address. -/
  processParameters : Nat → ProcessParameters
  /-- `Stack.Frames[i].Attributes.ReturnOffset` of the current thread. -/
  frameReturnOffset : Nat → Nat
  /-- The handle table of the current process: the address of the object
  behind a handle, when the handle is in the table. -/
  handles : Nat → Option Nat
  /-- The `StartAddress` recorded in the `_ETHREAD` at an address. -/
  ethreadStartAddress : Nat → Nat
  /-- The text a 64-bit host value has when interpolated into a template. -/
  show64 : Nat → Str
  /-- The value `host.evaluateExpression` gives for an expression text, when
  the debugger can evaluate it. -/
  evaluateExpression : Str → Option Nat

/-- What a JavaScript call can throw in this script. -/
inductive Thrown where
  /-- A property of `undefined` was read. -/
  | typeError
  /-- The handle is not in the handle table of the current process. -/
  | handleNotFound (handle : Nat)
  /-- The debugger could not evaluate an expression text. -/
  | evaluationFailed
  deriving DecidableEq, Repr

/-- The observable outcome of one call: how it completed, the lines written
through `log` and the commands given to `execute`, both in order. -/
structure Outcome (α : Type) where
  result : Except Thrown α
  logged : List Str
  executed : List Str

/-- The function `log` of line 7: the message followed by a newline. -/
def logLine (msg : Str) : Str := msg ++ "\n".toList

/-- The host call `host.memory.readMemoryValues(addr, count, size)` for `size = 8`:
`count` consecutive 64-bit values starting at `addr`. -/
def readMemoryValues (h : Host) (addr count size : Nat) : List Nat :=
  (List.range count).map fun i => h.memory ((addr + i * size) % 2 ^ 64) % 2 ^ 64

/-- The text of an array of host values in a template: its elements, with a
comma between them. -/
def arrayText (h : Host) (values : List Nat) : Str :=
  ",".toList.intercalate (values.map h.show64)

/-! ## First stage: `handleProcessCreation` (lines 10 to 51) -/

/-- Parameter index of `_RTL_USER_PROCESS_PARAMETERS` (line 11). -/
def PROCESS_PARAM_PARAM : Nat := 8

/-- Number of parameters of `nt!NtCreateUserProcess` (line 12). -/
def NTCREATEUSERPROCESS_PARAM_NUM : Nat := 11

/-- The message of line 29. -/
def skipMessage (fileName : Str) : Str := "[+] New process: ".toList ++ fileName

/-- The message of line 37. -/
def matchMessage (fileName : Str) : Str := "[!] New process: ".toList ++ fileName

/-- The command of line 49. -/
def secondStageCommand (h : Host) (ra rcx rdx : Nat) : Str :=
  "bp /1 /p $proc /t $thread ".toList ++ h.show64 ra
    ++ " \"dx @$scriptContents.handleProcessCreated(".toList ++ h.show64 rcx
    ++ ", ".toList ++ h.show64 rdx ++ ")\"".toList

/-- Lines 24 and 25: the pieces of the image path text and the last of them.
Indexing a JavaScript array out of range yields `undefined`, here `none`. -/
def fileNameOf (imagePathText : Str) : Option Str :=
  let imagePathName := split (slice imagePathText 1 (-1)) backslash
  imagePathName[imagePathName.length - 1]?

/-- Lines 15 to 21: the process parameters of the intercepted call. -/
def procParamsOf (h : Host) : Option ProcessParameters :=
  let rsp := h.rsp
  match (readMemoryValues h rsp (NTCREATEUSERPROCESS_PARAM_NUM + 1) 8)[PROCESS_PARAM_PARAM + 1]? with
  | none => none
  | some pUserProcessParams => some (h.processParameters pUserProcessParams)

/-- The function `handleProcessCreation` of lines 10 to 51. -/
def handleProcessCreation (js : Runtime) (h : Host) (processName : Str)
    (processCommand : Option Str) : Outcome Bool :=
  match procParamsOf h with
  | none => ⟨.error .typeError, [], []⟩
  | some procParams =>
    match fileNameOf procParams.ImagePathName with
    | none => ⟨.error .typeError, [], []⟩
    | some fileName =>
      if toUpperCase js processName != toUpperCase js fileName then
        ⟨.ok false, [logLine (skipMessage fileName)], []⟩
      else
        let returnsAtLine34 :=
          match processCommand with
          | none => false
          | some command =>
            if truthy processCommand then
              let commandLinePresent :=
                includes (toUpperCase js procParams.CommandLine) (toUpperCase js command)
              !commandLinePresent
            else false
        if returnsAtLine34 then
          ⟨.ok false, [], []⟩
        else
          let rcx := h.rcx
          let rdx := h.rdx
          let ra := h.frameReturnOffset 2
          ⟨.ok false, [logLine (matchMessage fileName)], [secondStageCommand h ra rcx rdx]⟩

/-! ## Second stage: `handleProcessCreated` (lines 53 to 87) -/

/-- The expression text of lines 69 and 70 for the array read at line 58 or
59. -/
def maskExpression (h : Host) (values : List Nat) : Str :=
  arrayText h values ++ " & 0xFFFF".toList

/-- Lines 58 and 69 (59 and 70 for the thread): the array read at the given
address is interpolated into the text `<value> & 0xFFFF`, and the debugger
evaluates that text. -/
def handleIndex (h : Host) (pHandle : Nat) : Option Nat :=
  h.evaluateExpression (maskExpression h (readMemoryValues h pHandle 1 8))

/-- The message of line 78. -/
def resolvedMessage (h : Host) (hproc eprocess hthrd kthread : Nat) : Str :=
  "[!] New process / thread: ".toList ++ h.show64 hproc ++ " (".toList ++ h.show64 eprocess
    ++ ") / ".toList ++ h.show64 hthrd ++ " (".toList ++ h.show64 kthread ++ ")".toList

/-- The command of line 85. -/
def thirdStageCommand (h : Host) (eprocess ethreadAddress startAddress : Nat) : Str :=
  "bp /1 /p ".toList ++ h.show64 eprocess ++ " /t ".toList ++ h.show64 ethreadAddress
    ++ " ".toList ++ h.show64 startAddress

/-- The command of line 86. -/
def resumeCommand : Str := "gc".toList

/-- The function `handleProcessCreated` of lines 53 to 87.  The typed object
made at line 81 sits at the address `kthread` it was made from, so
`ethread.address` is `kthread`. -/
def handleProcessCreated (h : Host) (phProc phThrd : Nat) : Outcome Unit :=
  match handleIndex h phProc with
  | none => ⟨.error .evaluationFailed, [], []⟩
  | some hproc =>
    match handleIndex h phThrd with
    | none => ⟨.error .evaluationFailed, [], []⟩
    | some hthrd =>
      match h.handles hproc with
      | none => ⟨.error (.handleNotFound hproc), [], []⟩
      | some eprocess =>
        match h.handles hthrd with
        | none => ⟨.error (.handleNotFound hthrd), [], []⟩
        | some kthread =>
          let ethreadAddress := kthread
          let startAddress := h.ethreadStartAddress kthread
          ⟨.ok (), [logLine (resolvedMessage h hproc eprocess hthrd kthread)],
            [thirdStageCommand h eprocess ethreadAddress startAddress, resumeCommand]⟩

/-! ## Arming the watch: `breakOnProcess` (lines 89 to 99) -/

/-- The breakpoint object that `SetBreakpointAtOffset` returns, with the
condition the script assigns to it. -/
structure Breakpoint where
  symbol : Str
  offset : Nat
  moduleName : Str
  Condition : Str

/-- Lines 92 to 95: the argument text of the condition. -/
def conditionArgs (processName : Str) (processCommand : Option Str) : Str :=
  let args := [dquote] ++ processName ++ [dquote]
  if truthy processCommand then
    args ++ (", ".toList ++ [dquote] ++ processCommand.getD [] ++ [dquote])
  else args

/-- The text before the arguments in the condition of line 96. -/
def conditionHead : Str := "@$scriptContents.handleProcessCreation(".toList

/-- The function `breakOnProcess` of lines 89 to 99: the breakpoint it
configures and the line it logs. -/
def breakOnProcess (processName : Str) (processCommand : Option Str) :
    Breakpoint × List Str :=
  let args := conditionArgs processName processCommand
  let bp : Breakpoint :=
    { symbol := "NtCreateUserProcess".toList, offset := 0, moduleName := "nt".toList,
      Condition := conditionHead ++ args ++ ")".toList }
  (bp, [logLine ("[+] Breaking in new \x27".toList ++ processName ++ "\x27 processes".toList)])

/-! ## The vocabulary of the specification -/

/-- Case-insensitive equality of two strings: they have the same upper-case
form under the case mapping of the engine. -/
def CaseInsensitiveEq (js : Runtime) (s t : Str) : Prop :=
  toUpperCase js s = toUpperCase js t

instance (js : Runtime) (s t : Str) : Decidable (CaseInsensitiveEq js s t) := by
  unfold CaseInsensitiveEq; infer_instance

/-- The command line contains `pat` as a case-insensitive substring: the
upper-case form of `pat` occurs in the upper-case form of the command line. -/
def ContainsCaseInsensitive (js : Runtime) (commandLine pat : Str) : Prop :=
  toUpperCase js pat <:+: toUpperCase js commandLine

instance (js : Runtime) (commandLine pat : Str) :
    Decidable (ContainsCaseInsensitive js commandLine pat) := by
  unfold ContainsCaseInsensitive; infer_instance

/-- The command-line filter is satisfied: there is no `processCommand`, or the
command line contains it as a case-insensitive substring. -/
def CommandLineMatches (js : Runtime) (commandLine : Str) (processCommand : Option Str) :
    Prop :=
  processCommand = none ∨
    ∃ command : Str,
      processCommand = some command ∧ ContainsCaseInsensitive js commandLine command

instance (js : Runtime) (commandLine : Str) :
    (processCommand : Option Str) →
      Decidable (CommandLineMatches js commandLine processCommand)
  | none => isTrue (Or.inl rfl)
  | some command =>
    if hc : ContainsCaseInsensitive js commandLine command then
      isTrue (Or.inr ⟨command, rfl, hc⟩)
    else
      isFalse fun hm =>
        hm.elim (fun hn => Option.noConfusion hn) fun ⟨_, hs, hcc⟩ =>
          hc (Option.some.inj hs ▸ hcc)

/-- A string of Basic Latin characters only. -/
def IsAscii (s : Str) : Prop := ∀ c ∈ s, c.toNat < 128

instance (s : Str) : Decidable (IsAscii s) := by
  unfold IsAscii; infer_instance

/-- Two Basic Latin characters are the same letter up to case: the second is
the first, or its upper-case form, or its lower-case form. -/
def SameLetter (c d : Char) : Prop := d = c ∨ d = c.toUpper ∨ d = c.toLower

instance (c d : Char) : Decidable (SameLetter c d) := by
  unfold SameLetter; infer_instance

/-- One string of Basic Latin characters is a case permutation of another:
they have the same length and agree letter by letter up to case. -/
def AsciiCasePermutation : Str → Str → Prop
  | [], [] => True
  | c :: cs, d :: ds => SameLetter c d ∧ AsciiCasePermutation cs ds
  | [], _ :: _ => False
  | _ :: _, [] => False

instance AsciiCasePermutation.decide :
    (s t : Str) → Decidable (AsciiCasePermutation s t)
  | [], [] => isTrue trivial
  | c :: cs, d :: ds =>
    match AsciiCasePermutation.decide cs ds with
    | isTrue hr =>
      if hc : SameLetter c d then isTrue ⟨hc, hr⟩ else isFalse fun hcd => hc hcd.1
    | isFalse hr => isFalse fun hcd => hr hcd.2
  | [], _ :: _ => isFalse id
  | _ :: _, [] => isFalse id

/-- The process parameters the first stage reads at a breakpoint hit. -/
def eventParams (h : Host) : ProcessParameters :=
  (procParamsOf h).getD ⟨[], []⟩

/-- The file name the first stage computes at a breakpoint hit. -/
def eventFileName (h : Host) : Str :=
  (fileNameOf (eventParams h).ImagePathName).getD []

/-- The command line the first stage reads at a breakpoint hit. -/
def eventCommandLine (h : Host) : Str := (eventParams h).CommandLine

/-- The event matches the filter: the name and the command line both do. -/
def EventMatches (js : Runtime) (h : Host) (processName : Str)
    (processCommand : Option Str) : Prop :=
  CaseInsensitiveEq js processName (eventFileName h) ∧
    CommandLineMatches js (eventCommandLine h) processCommand

/-- The call returned at line 30, the name check: it wrote the line
`[+] New process: <fileName>`, executed nothing and returned `false`. -/
def ReturnedAtNameCheck (o : Outcome Bool) (fileName : Str) : Prop :=
  o.result = .ok false ∧
    o.logged = ["[+] New process: ".toList ++ fileName ++ "\n".toList] ∧ o.executed = []

/-- The call went past both checks and reached line 37, where it writes the
line `[!] New process: <fileName>` of a matched process. -/
def PassedCommandCheck (o : Outcome Bool) (fileName : Str) : Prop :=
  o.logged = ["[!] New process: ".toList ++ fileName ++ "\n".toList]

/-- The code point of the upper-case form of a character. -/
def upperCode (n : Nat) : Nat := if 97 ≤ n ∧ n ≤ 122 then n - 32 else n

/-- The code point of the lower-case form of a character. -/
def lowerCode (n : Nat) : Nat := if 65 ≤ n ∧ n ≤ 90 then n + 32 else n

/-- The upper-case forms of Unicode for Basic Latin, the Latin-1 Supplement
and the Cyrillic letters `U+0430`..`U+045F`; a character of another block is
left as it is. -/
def sampleUpper (c : Char) : Str :=
  let n := c.toNat
  if n < 128 then [c.toUpper]
  else if n = 181 then [Char.ofNat 924]
  else if n = 223 then "SS".toList
  else if 224 ≤ n ∧ n ≤ 254 ∧ n ≠ 247 then [Char.ofNat (n - 32)]
  else if n = 255 then [Char.ofNat 376]
  else if 1072 ≤ n ∧ n ≤ 1103 then [Char.ofNat (n - 32)]
  else if 1104 ≤ n ∧ n ≤ 1119 then [Char.ofNat (n - 80)]
  else [c]

/-- An engine with the case mapping `sampleUpper`. -/
def sampleRuntime : Runtime where
  upper := sampleUpper
  upper_ascii := by
    intro c hc
    simp only [sampleUpper, hc, if_true]

/-- Reading the decimal digits at the front of a text: their value, added to
ten times `acc` digit by digit, and the text after them. -/
def readDecimal : Str → Nat → Nat × Str
  | [], acc => (acc, [])
  | c :: cs, acc =>
    if c.isDigit then readDecimal cs (acc * 10 + (c.toNat - 48)) else (acc, c :: cs)

/-- An expression evaluator that knows the texts `<decimal> & 0xFFFF` and
gives the bitwise AND they denote. -/
def evaluateMaskText (text : Str) : Option Nat :=
  match text with
  | [] => none
  | c :: _ =>
    if c.isDigit ∧ (readDecimal text 0).2 = " & 0xFFFF".toList then
      some ((readDecimal text 0).1 &&& 0xFFFF)
    else none

/-- A breakpoint hit at `nt!NtCreateUserProcess` for the creation of a process
with the given image path text and command line.  The handle table holds no
handle. -/
def hostWith (imagePathText commandLine : Str) : Host where
  rsp := 0x1000
  rcx := 0x2000
  rdx := 0x2008
  memory := fun a => if a = 0x1048 then 0x5000 else 0
  processParameters := fun a =>
    if a = 0x5000 then ⟨imagePathText, commandLine⟩ else ⟨[], []⟩
  frameReturnOffset := fun i => 0x7000 + i
  handles := fun _ => none
  ethreadStartAddress := fun _ => 0
  show64 := fun n => Nat.toDigits 10 n
  evaluateExpression := evaluateMaskText

/-- The creation of `C:\Windows\System32\CMD.EXE` with the command line
`C:\cmd.exe /c echo HI there`. -/
def cmdHost : Host :=
  hostWith "\"C:\\Windows\\System32\\CMD.EXE\"".toList "C:\\cmd.exe /c echo HI there".toList

/-- The creation of `C:\Temp\ФАЙЛ.EXE` with the command line `cmd /c CAFÉ`. -/
def cyrillicHost : Host :=
  hostWith "\"C:\\Temp\\ФАЙЛ.EXE\"".toList "cmd /c CAFÉ".toList

/-- The creation of `C:\Temp\straße.exe` with the command line `straße`. -/
def sharpSHost : Host :=
  hostWith "\"C:\\Temp\\straße.exe\"".toList "straße".toList

/-- The host after the intercepted call returned: the handles `0x1234` (tagged
as a kernel handle) and `0x1238` were stored at `0x2000` and `0x2008`, and
the handle table resolves both. -/
def createdHost : Host where
  rsp := 0x1000
  rcx := 0
  rdx := 0
  memory := fun a =>
    if a = 0x2000 then 0xFFFFFFFF80001234 else if a = 0x2008 then 0x1238 else 0
  processParameters := fun _ => ⟨[], []⟩
  frameReturnOffset := fun _ => 0
  handles := fun i =>
    if i = 0x1234 then some 0xA000 else if i = 0x1238 then some 0xB000 else none
  ethreadStartAddress := fun a => if a = 0xB000 then 0x401000 else 0
  show64 := fun n => Nat.toDigits 10 n
  evaluateExpression := evaluateMaskText

/-- The host of `createdHost` after the thread handle `0x1238` was closed:
only the process handle is still in the handle table. -/
def staleHost : Host :=
  { createdHost with handles := fun i => if i = 0x1234 then some 0xA000 else none }

/-- Reading the inside of a double-quoted literal, after its opening quote:
the characters up to the closing quote and what follows it.  With `escapes`
a backslash makes the character after it part of the text; without, a
backslash is a character like any other. -/
def readQuotedBody (escapes : Bool) : Str → Option (Str × Str)
  | [] => none
  | c :: cs =>
    if c = dquote then some ([], cs)
    else if escapes = true ∧ c = backslash then
      match cs with
      | [] => none
      | d :: ds => (readQuotedBody escapes ds).map fun r => (d :: r.1, r.2)
    else (readQuotedBody escapes cs).map fun r => (c :: r.1, r.2)

/-- Reading one double-quoted literal from the front of a text. -/
def readQuoted (escapes : Bool) : Str → Option (Str × Str)
  | [] => none
  | c :: cs => if c = dquote then readQuotedBody escapes cs else none

/-- Reading an argument list of double-quoted literals separated by a comma
and a blank, back into the strings they denote.  The count bounds the number
of literals read. -/
def readArgsUpTo (escapes : Bool) : Nat → Str → Option (List Str)
  | 0, _ => none
  | n + 1, text =>
    match readQuoted escapes text with
    | none => none
    | some (arg, []) => some [arg]
    | some (arg, c :: d :: rest) =>
      if c = Char.ofNat 44 ∧ d = Char.ofNat 32 then
        (readArgsUpTo escapes n rest).map (arg :: ·)
      else none
    | some (_, [_]) => none

/-- Reading back the arguments of a condition text. -/
def readArgs (escapes : Bool) (text : Str) : Option (List Str) :=
  readArgsUpTo escapes text.length text

/-- The strings that `breakOnProcess` is given: the name, and the command
when one is set (line 93 takes an empty command for none). -/
def givenArgs (processName : Str) (processCommand : Option Str) : List Str :=
  processName :: (if truthy processCommand then processCommand.toList else [])

/-- A string that a reader of double-quoted literals reads back unchanged: it
holds no double quote, and no backslash when the reader takes the backslash
for an escape. -/
def Readable (escapes : Bool) (s : Str) : Prop :=
  dquote ∉ s ∧ (escapes = true → backslash ∉ s)

instance (escapes : Bool) (s : Str) : Decidable (Readable escapes s) := by
  unfold Readable; infer_instance

/-! ## Lemmas on the string built-ins -/

theorem toNat_ofNat_small (n : Nat) (h : n < 55296) : (Char.ofNat n).toNat = n := by
  have hv : n.isValidChar := Or.inl h
  simp only [Char.ofNat, hv, dite_true, Char.ofNatAux, Char.toNat]
  rfl

theorem char_eq_iff_toNat (c d : Char) : c = d ↔ c.toNat = d.toNat :=
  ⟨fun e => e ▸ rfl, fun e => by rw [← Char.ofNat_toNat c, ← Char.ofNat_toNat d, e]⟩

theorem toNat_toUpper (c : Char) : c.toUpper.toNat = upperCode c.toNat := by
  unfold Char.toUpper upperCode
  by_cases hc : 97 ≤ c.toNat ∧ c.toNat ≤ 122
  · simp only [ge_iff_le, hc, and_self, if_true]
    exact toNat_ofNat_small _ (by omega)
  · simp only [ge_iff_le, hc, if_false]

theorem toNat_toLower (c : Char) : c.toLower.toNat = lowerCode c.toNat := by
  unfold Char.toLower lowerCode
  by_cases hc : 65 ≤ c.toNat ∧ c.toNat ≤ 90
  · simp only [ge_iff_le, hc, and_self, if_true]
    exact toNat_ofNat_small _ (by omega)
  · simp only [ge_iff_le, hc, if_false]

theorem toUpper_eq_iff_sameLetter (c d : Char) :
    c.toUpper = d.toUpper ↔ SameLetter c d := by
  unfold SameLetter
  rw [char_eq_iff_toNat, char_eq_iff_toNat d c, char_eq_iff_toNat d c.toUpper,
    char_eq_iff_toNat d c.toLower, toNat_toUpper, toNat_toUpper, toNat_toLower]
  unfold upperCode lowerCode
  split_ifs <;> omega

theorem map_toUpper_eq_iff (s t : Str) :
    s.map Char.toUpper = t.map Char.toUpper ↔ AsciiCasePermutation s t := by
  induction s generalizing t with
  | nil => cases t <;> simp [AsciiCasePermutation]
  | cons c cs ih =>
    cases t with
    | nil => simp [AsciiCasePermutation]
    | cons d ds =>
      simp only [List.map_cons, List.cons.injEq, AsciiCasePermutation]
      rw [toUpper_eq_iff_sameLetter, ih ds]

theorem toUpperCase_ascii (js : Runtime) (s : Str) (hs : IsAscii s) :
    toUpperCase js s = s.map Char.toUpper := by
  induction s with
  | nil => rfl
  | cons c cs ih =>
    have hc : c.toNat < 128 := hs c (List.mem_cons_self c cs)
    have hcs : IsAscii cs := fun d hd => hs d (List.mem_cons_of_mem c hd)
    have ih2 := ih hcs
    unfold toUpperCase at ih2 ⊢
    rw [List.flatMap_cons, js.upper_ascii c hc, ih2]
    rfl

theorem toUpperCase_append (js : Runtime) (s t : Str) :
    toUpperCase js (s ++ t) = toUpperCase js s ++ toUpperCase js t :=
  List.flatMap_append s t js.upper

theorem toUpperCase_infix (js : Runtime) (part s : Str) (hp : part <:+: s) :
    toUpperCase js part <:+: toUpperCase js s := by
  obtain ⟨a, b, rfl⟩ := hp
  rw [toUpperCase_append, toUpperCase_append]
  exact ⟨_, _, rfl⟩

theorem isAscii_infix (part s : Str) (hp : part <:+: s) (hs : IsAscii s) : IsAscii part :=
  fun c hc => hs c (hp.subset hc)

theorem startsWith_iff (s pat : Str) : startsWith s pat = true ↔ pat <+: s := by
  induction pat generalizing s with
  | nil => simp [startsWith]
  | cons p ps ih =>
    cases s with
    | nil => simp [startsWith]
    | cons c cs =>
      simp only [startsWith, Bool.and_eq_true, beq_iff_eq, ih, List.cons_prefix_cons]
      constructor
      · rintro ⟨e, hp⟩; exact ⟨e.symm, hp⟩
      · rintro ⟨e, hp⟩; exact ⟨e.symm, hp⟩

theorem includes_iff (s pat : Str) : includes s pat = true ↔ pat <:+: s := by
  induction s with
  | nil =>
    simp only [includes, startsWith_iff]
    constructor
    · intro hp; exact hp.isInfix
    · intro hp
      have := List.eq_nil_of_infix_nil hp
      subst this; exact List.prefix_refl _
  | cons c cs ih =>
    simp only [includes, Bool.or_eq_true, startsWith_iff, ih, List.infix_cons_iff]

theorem infix_map_iff (f : Char → Char) (pat s : Str) :
    pat <:+: s.map f ↔ ∃ part : Str, part <:+: s ∧ pat = part.map f := by
  constructor
  · rintro ⟨a, b, hab⟩
    obtain ⟨l₁, l₂, rfl, h1, h2⟩ := List.map_eq_append_iff.mp hab.symm
    obtain ⟨l₃, l₄, rfl, h3, h4⟩ := List.map_eq_append_iff.mp h1
    exact ⟨l₄, ⟨l₃, l₂, rfl⟩, h4.symm⟩
  · rintro ⟨part, hp, rfl⟩
    exact hp.map f

theorem contains_iff_includes (js : Runtime) (commandLine pat : Str) :
    ContainsCaseInsensitive js commandLine pat ↔
      includes (toUpperCase js commandLine) (toUpperCase js pat) = true :=
  (includes_iff _ _).symm

/-- On Basic Latin, containing a string case-insensitively is having a part
that is a case permutation of it. -/
theorem contains_ascii_iff (js : Runtime) (commandLine pat : Str)
    (hcl : IsAscii commandLine) (hpat : IsAscii pat) :
    ContainsCaseInsensitive js commandLine pat ↔
      ∃ part : Str, part <:+: commandLine ∧ AsciiCasePermutation pat part := by
  unfold ContainsCaseInsensitive
  rw [toUpperCase_ascii js _ hcl, toUpperCase_ascii js _ hpat, infix_map_iff]
  constructor
  · rintro ⟨part, hp, he⟩; exact ⟨part, hp, (map_toUpper_eq_iff pat part).mp he⟩
  · rintro ⟨part, hp, he⟩; exact ⟨part, hp, (map_toUpper_eq_iff pat part).mpr he⟩

theorem caseInsensitiveEq_ascii_iff (js : Runtime) (s t : Str)
    (hs : IsAscii s) (ht : IsAscii t) :
    CaseInsensitiveEq js s t ↔ AsciiCasePermutation s t := by
  unfold CaseInsensitiveEq
  rw [toUpperCase_ascii js _ hs, toUpperCase_ascii js _ ht, map_toUpper_eq_iff]

theorem split_ne_nil (s : Str) (sep : Char) : split s sep ≠ [] := by
  cases s with
  | nil => simp [split]
  | cons c cs =>
    unfold split
    split_ifs
    · simp
    · split <;> simp

/-- The last piece of a split holds no separator; the split is the text
alone, or the text ends in a separator followed by the last piece. -/
theorem split_getLast_strong (s : Str) (sep : Char) :
    ∃ f : Str, (split s sep).getLast? = some f ∧ sep ∉ f ∧
      ((f = s ∧ split s sep = [s]) ∨
        ((∃ pre : Str, s = pre ++ sep :: f) ∧ ∃ p q r, split s sep = p :: q :: r)) := by
  induction s with
  | nil => exact ⟨[], by simp [split], by simp, Or.inl ⟨rfl, rfl⟩⟩
  | cons c cs ih =>
    obtain ⟨f, hf, hsep, hs⟩ := ih
    by_cases hc : c = sep
    · cases hsp : split cs sep with
      | nil => exact absurd hsp (split_ne_nil cs sep)
      | cons piece pieces =>
        rw [hsp] at hf
        refine ⟨f, ?_, hsep, Or.inr ⟨?_, [], piece, pieces, by simp [split, hc, hsp]⟩⟩
        · simp only [split, hc, if_true, hsp, List.getLast?_cons_cons]
          exact hf
        · rcases hs with ⟨rfl, _⟩ | ⟨⟨pre, rfl⟩, _⟩
          · exact ⟨[], by simp [hc]⟩
          · exact ⟨c :: pre, by simp⟩
    · rcases hs with ⟨rfl, hone⟩ | ⟨⟨pre, rfl⟩, p, q, r, htwo⟩
      · refine ⟨c :: f, by simp [split, hc, hone], ?_, Or.inl ⟨rfl, by simp [split, hc, hone]⟩⟩
        simp only [List.mem_cons, not_or]; exact ⟨fun e => hc e.symm, hsep⟩
      · rw [htwo, List.getLast?_cons_cons] at hf
        refine ⟨f, ?_, hsep, Or.inr ⟨⟨c :: pre, by simp⟩, c :: p, q, r, by simp [split, hc, htwo]⟩⟩
        simp only [split, hc, if_false, htwo, List.getLast?_cons_cons]
        exact hf

theorem slice_strip (text : Str) : slice text 1 (-1) = text.tail.dropLast := by
  cases text with
  | nil => rfl
  | cons c cs =>
    have h1 : sliceIndex (c :: cs).length 1 = 1 := by
      simp [sliceIndex]
    have h2 : sliceIndex (c :: cs).length (-1) = cs.length := by
      simp only [sliceIndex, List.length_cons]
      rw [if_pos (by decide)]
      simp only [Int.ofNat_eq_coe, Nat.cast_add, Nat.cast_one]
      omega
    unfold slice
    simp only [h1, h2, List.drop_succ_cons, List.drop_zero, List.tail_cons,
      List.dropLast_eq_take]

theorem fileNameOf_eq_getLast (text : Str) :
    fileNameOf text = (split (slice text 1 (-1)) backslash).getLast? := by
  unfold fileNameOf
  simp only [List.getLast?_eq_getElem?]

theorem fileNameOf_defined (text : Str) :
    fileNameOf text = some ((fileNameOf text).getD []) := by
  obtain ⟨f, hf, _⟩ := split_getLast_strong (slice text 1 (-1)) backslash
  rw [fileNameOf_eq_getLast, hf]; rfl

theorem procParamsOf_defined (h : Host) :
    procParamsOf h =
      some (h.processParameters (h.memory ((h.rsp + 9 * 8) % 2 ^ 64) % 2 ^ 64)) := by
  simp [procParamsOf, readMemoryValues, PROCESS_PARAM_PARAM, NTCREATEUSERPROCESS_PARAM_NUM]

/-! ## The first stage, path by path -/

theorem procParamsOf_eventParams (h : Host) : procParamsOf h = some (eventParams h) := by
  rw [eventParams, procParamsOf_defined]; rfl

theorem fileNameOf_eventFileName (h : Host) :
    fileNameOf (eventParams h).ImagePathName = some (eventFileName h) :=
  fileNameOf_defined _

theorem handleProcessCreation_eq (js : Runtime) (h : Host) (processName : Str)
    (processCommand : Option Str) :
    handleProcessCreation js h processName processCommand =
      if toUpperCase js processName != toUpperCase js (eventFileName h) then
        ⟨.ok false, [logLine (skipMessage (eventFileName h))], []⟩
      else if (match processCommand with
          | none => false
          | some command =>
            if truthy processCommand then
              !includes (toUpperCase js (eventCommandLine h)) (toUpperCase js command)
            else false) then
        ⟨.ok false, [], []⟩
      else
        ⟨.ok false, [logLine (matchMessage (eventFileName h))],
          [secondStageCommand h (h.frameReturnOffset 2) h.rcx h.rdx]⟩ := by
  unfold handleProcessCreation
  rw [procParamsOf_eventParams]
  simp only []
  rw [fileNameOf_eventFileName]
  rfl

theorem handleProcessCreation_name_mismatch (js : Runtime) (h : Host) (processName : Str)
    (processCommand : Option Str)
    (hname : ¬ CaseInsensitiveEq js processName (eventFileName h)) :
    handleProcessCreation js h processName processCommand =
      ⟨.ok false, [logLine (skipMessage (eventFileName h))], []⟩ := by
  rw [handleProcessCreation_eq, if_pos]
  rw [bne_iff_ne, Ne]
  exact hname

theorem handleProcessCreation_command_mismatch (js : Runtime) (h : Host)
    (processName command : Str)
    (hname : CaseInsensitiveEq js processName (eventFileName h))
    (hcmd : ¬ ContainsCaseInsensitive js (eventCommandLine h) command) :
    handleProcessCreation js h processName (some command) = ⟨.ok false, [], []⟩ := by
  have hne : command ≠ [] := by
    rintro rfl
    exact hcmd List.nil_infix
  have hinc :
      includes (toUpperCase js (eventCommandLine h)) (toUpperCase js command) = false := by
    rw [← Bool.not_eq_true, ← contains_iff_includes]; exact hcmd
  have ht : truthy (some command) = true := by
    cases command with
    | nil => exact absurd rfl hne
    | cons c cs => rfl
  rw [handleProcessCreation_eq, if_neg, if_pos]
  · simp only [ht, if_true, hinc, Bool.not_false]
  · rw [bne_iff_ne, Ne, not_not]
    exact hname

theorem handleProcessCreation_match (js : Runtime) (h : Host) (processName : Str)
    (processCommand : Option Str) (hm : EventMatches js h processName processCommand) :
    handleProcessCreation js h processName processCommand =
      ⟨.ok false, [logLine (matchMessage (eventFileName h))],
        [secondStageCommand h (h.frameReturnOffset 2) h.rcx h.rdx]⟩ := by
  obtain ⟨hname, hcmd⟩ := hm
  rw [handleProcessCreation_eq, if_neg, if_neg]
  · rcases hcmd with rfl | ⟨command, rfl, hc⟩
    · simp
    · rw [contains_iff_includes] at hc
      simp [hc]
  · rw [bne_iff_ne, Ne, not_not]
    exact hname

theorem skipMessage_ne_matchMessage (f g : Str) :
    logLine (skipMessage f) ≠ logLine (matchMessage g) := by
  intro he
  simp only [logLine, skipMessage, matchMessage] at he
  have e1 : "[+] New process: ".toList = '[' :: '+' :: "] New process: ".toList := rfl
  have e2 : "[!] New process: ".toList = '[' :: '!' :: "] New process: ".toList := rfl
  rw [e1, e2] at he
  simp only [List.cons_append, List.cons.injEq, true_and] at he
  exact absurd he.1 (by decide)

/-- An event either fails the name check, or passes it and fails the command
check, or matches. -/
theorem event_cases (js : Runtime) (h : Host) (processName : Str)
    (processCommand : Option Str) :
    ¬ CaseInsensitiveEq js processName (eventFileName h) ∨
    (CaseInsensitiveEq js processName (eventFileName h) ∧
      ∃ command, processCommand = some command ∧
        ¬ ContainsCaseInsensitive js (eventCommandLine h) command) ∨
    EventMatches js h processName processCommand := by
  by_cases hname : CaseInsensitiveEq js processName (eventFileName h)
  · right
    cases processCommand with
    | none => exact Or.inr ⟨hname, Or.inl rfl⟩
    | some command =>
      by_cases hc : ContainsCaseInsensitive js (eventCommandLine h) command
      · exact Or.inr ⟨hname, Or.inr ⟨command, rfl, hc⟩⟩
      · exact Or.inl ⟨hname, command, rfl, hc⟩
  · exact Or.inl hname

theorem not_returnedAtNameCheck_iff (js : Runtime) (h : Host) (processName : Str)
    (processCommand : Option Str) :
    ¬ ReturnedAtNameCheck (handleProcessCreation js h processName processCommand)
        (eventFileName h) ↔
      CaseInsensitiveEq js processName (eventFileName h) := by
  constructor
  · intro hret
    by_contra hname
    apply hret
    rw [handleProcessCreation_name_mismatch js h processName processCommand hname]
    exact ⟨rfl, rfl, rfl⟩
  · intro hname hret
    have hlog := hret.2.1
    rcases event_cases js h processName processCommand with hn | ⟨_, command, rfl, hc⟩ | hm
    · exact hn hname
    · rw [handleProcessCreation_command_mismatch js h processName command hname hc] at hlog
      exact absurd hlog (by simp)
    · rw [handleProcessCreation_match js h processName processCommand hm] at hlog
      simp only [List.cons.injEq, and_true] at hlog
      exact skipMessage_ne_matchMessage _ _ hlog.symm

theorem passedCommandCheck_iff (js : Runtime) (h : Host) (processName : Str)
    (processCommand : Option Str)
    (hname : CaseInsensitiveEq js processName (eventFileName h)) :
    PassedCommandCheck (handleProcessCreation js h processName processCommand)
        (eventFileName h) ↔
      CommandLineMatches js (eventCommandLine h) processCommand := by
  constructor
  · intro hpass
    unfold PassedCommandCheck at hpass
    rcases event_cases js h processName processCommand with hn | ⟨_, command, rfl, hc⟩ | hm
    · exact absurd hname hn
    · rw [handleProcessCreation_command_mismatch js h processName command hname hc] at hpass
      exact absurd hpass (by simp)
    · exact hm.2
  · intro hcmd
    unfold PassedCommandCheck
    rw [handleProcessCreation_match js h processName processCommand ⟨hname, hcmd⟩]
    rfl

/-! ## The first stage: the claims -/

/-- C9: for every text form of the image path, the file name computed at lines
24 and 25 is always defined and is the last backslash-separated component of
the text without its first and last character: it holds no backslash, it is a
suffix of the stripped text, and it is the whole stripped text (then without
any backslash) or is preceded by a backslash there. -/
theorem fileName_last_component (text : Str) :
    ∃ fileName : Str,
      fileNameOf text = some fileName ∧
      slice text 1 (-1) = text.tail.dropLast ∧
      backslash ∉ fileName ∧
      fileName <:+ slice text 1 (-1) ∧
      ((fileName = slice text 1 (-1) ∧ backslash ∉ slice text 1 (-1)) ∨
        ∃ before : Str, slice text 1 (-1) = before ++ backslash :: fileName) := by
  obtain ⟨f, hf, hsep, hs⟩ := split_getLast_strong (slice text 1 (-1)) backslash
  refine ⟨f, ?_, slice_strip text, hsep, ?_, ?_⟩
  · rw [fileNameOf_eq_getLast, hf]
  · rcases hs with ⟨e, _⟩ | ⟨⟨pre, e⟩, _⟩
    · rw [← e]
    · rw [e]; exact ⟨pre ++ [backslash], by simp⟩
  · rcases hs with ⟨e, _⟩ | ⟨⟨pre, e⟩, _⟩
    · left; rw [← e]; exact ⟨rfl, hsep⟩
    · right; exact ⟨pre, e⟩

/-- C1: for every engine, filter and event, `handleProcessCreation` goes past
the name check (it does not return at line 30 with the `[+]` line) exactly
when the file name equals `processName` case-insensitively, that is, when
both have the same upper-case form.  For names of Basic Latin characters this
is exactly: the file name is a case permutation of `processName`, letter by
letter.  So `CMD.EXE` is accepted for the filter `cmd.exe`, under every
engine. -/
theorem name_check_case_insensitive (js : Runtime) (h : Host) (processName : Str)
    (processCommand : Option Str) :
    (¬ ReturnedAtNameCheck (handleProcessCreation js h processName processCommand)
        (eventFileName h) ↔
      CaseInsensitiveEq js processName (eventFileName h)) ∧
    (IsAscii processName → IsAscii (eventFileName h) →
      (¬ ReturnedAtNameCheck (handleProcessCreation js h processName processCommand)
          (eventFileName h) ↔
        AsciiCasePermutation processName (eventFileName h))) ∧
    eventFileName cmdHost = "CMD.EXE".toList ∧
    ¬ ReturnedAtNameCheck (handleProcessCreation js cmdHost "cmd.exe".toList none)
        "CMD.EXE".toList := by
  refine ⟨not_returnedAtNameCheck_iff js h processName processCommand, ?_, by decide, ?_⟩
  · intro hp hf
    rw [not_returnedAtNameCheck_iff, caseInsensitiveEq_ascii_iff js _ _ hp hf]
  · have hf : eventFileName cmdHost = "CMD.EXE".toList := by decide
    have hci : CaseInsensitiveEq js "cmd.exe".toList (eventFileName cmdHost) := by
      rw [caseInsensitiveEq_ascii_iff js _ _ (by decide) (by decide)]
      decide
    have := (not_returnedAtNameCheck_iff js cmdHost "cmd.exe".toList none).mpr hci
    rw [hf] at this
    exact this

/-- The filter `cmd.exe` against `CMD.EXE`, a Basic Latin case permutation;
the filter `файл.exe` against `ФАЙЛ.EXE` and the filter `STRASSE.EXE` against
`straße.exe`, which have the same upper-case forms; and the filter `cmd.exe`
against `ФАЙЛ.EXE`, which is rejected. -/
theorem name_check_case_insensitive_witness :
    IsAscii "cmd.exe".toList ∧ IsAscii (eventFileName cmdHost) ∧
    (¬ ReturnedAtNameCheck (handleProcessCreation sampleRuntime cmdHost "cmd.exe".toList none)
        (eventFileName cmdHost) ↔
      AsciiCasePermutation "cmd.exe".toList (eventFileName cmdHost)) ∧
    AsciiCasePermutation "cmd.exe".toList (eventFileName cmdHost) ∧
    eventFileName cyrillicHost = "ФАЙЛ.EXE".toList ∧
    CaseInsensitiveEq sampleRuntime "файл.exe".toList (eventFileName cyrillicHost) ∧
    ¬ ReturnedAtNameCheck
        (handleProcessCreation sampleRuntime cyrillicHost "файл.exe".toList none)
        (eventFileName cyrillicHost) ∧
    eventFileName sharpSHost = "straße.exe".toList ∧
    ¬ ReturnedAtNameCheck
        (handleProcessCreation sampleRuntime sharpSHost "STRASSE.EXE".toList none)
        (eventFileName sharpSHost) ∧
    ReturnedAtNameCheck
        (handleProcessCreation sampleRuntime cyrillicHost "cmd.exe".toList none)
        (eventFileName cyrillicHost) :=
  ⟨by decide, by decide,
    (name_check_case_insensitive sampleRuntime cmdHost "cmd.exe".toList none).2.1
      (by decide) (by decide),
    by decide, by decide, by decide,
    (name_check_case_insensitive sampleRuntime cyrillicHost "файл.exe".toList none).1.mpr
      (by decide),
    by decide,
    (name_check_case_insensitive sampleRuntime sharpSHost "STRASSE.EXE".toList none).1.mpr
      (by decide),
    not_not.mp (fun hn =>
      absurd ((name_check_case_insensitive sampleRuntime cyrillicHost "cmd.exe".toList
        none).1.mp hn) (by decide))⟩

/-- C2: for every event whose name matched, the command-line check of
`handleProcessCreation` passes (line 37 is reached and the `[!]` line is
written) exactly when `processCommand` is absent or the command line contains
it as a case-insensitive substring, that is, when its upper-case form occurs
in the upper-case form of the command line.  A part of the command line equal
to `processCommand` case-insensitively is enough for that, and for Basic
Latin texts the check passes exactly when some part of the command line is a
case permutation of `processCommand`. -/
theorem command_check_substring (js : Runtime) (h : Host) (processName : Str)
    (processCommand : Option Str)
    (hname : CaseInsensitiveEq js processName (eventFileName h)) :
    (PassedCommandCheck (handleProcessCreation js h processName processCommand)
        (eventFileName h) ↔
      CommandLineMatches js (eventCommandLine h) processCommand) ∧
    (processCommand = none →
      PassedCommandCheck (handleProcessCreation js h processName processCommand)
        (eventFileName h)) ∧
    (∀ command part : Str, processCommand = some command →
      part <:+: eventCommandLine h → CaseInsensitiveEq js command part →
      PassedCommandCheck (handleProcessCreation js h processName processCommand)
        (eventFileName h)) ∧
    (∀ command : Str, processCommand = some command →
      IsAscii (eventCommandLine h) → IsAscii command →
      (PassedCommandCheck (handleProcessCreation js h processName processCommand)
          (eventFileName h) ↔
        ∃ part : Str, part <:+: eventCommandLine h ∧ AsciiCasePermutation command part)) := by
  have hiff := passedCommandCheck_iff js h processName processCommand hname
  refine ⟨hiff, fun hnone => hiff.mpr (Or.inl hnone), ?_, ?_⟩
  · intro command part hpc hpart heq
    refine hiff.mpr (Or.inr ⟨command, hpc, ?_⟩)
    unfold ContainsCaseInsensitive
    rw [show toUpperCase js command = toUpperCase js part from heq]
    exact toUpperCase_infix js part _ hpart
  · intro command hpc hcl hcmd
    rw [hiff, ← contains_ascii_iff js _ _ hcl hcmd]
    constructor
    · rintro (hnone | ⟨c, hsome, hc⟩)
      · rw [hpc] at hnone; exact absurd hnone (by simp)
      · rw [hpc] at hsome; cases hsome; exact hc
    · intro hc; exact Or.inr ⟨command, hpc, hc⟩

/-- The filter `("cmd.exe", "echo hi")` against the command line
`C:\cmd.exe /c echo HI there`: the name matches and the check passes, `echo HI`
being a case permutation of `echo hi`; the filter `("cmd.exe", "foo")` does
not pass; the filter `("файл.exe", "café")` against `cmd /c CAFÉ` passes. -/
theorem command_check_substring_witness :
    CaseInsensitiveEq sampleRuntime "cmd.exe".toList (eventFileName cmdHost) ∧
    eventCommandLine cmdHost = "C:\\cmd.exe /c echo HI there".toList ∧
    "echo HI".toList <:+: eventCommandLine cmdHost ∧
    AsciiCasePermutation "echo hi".toList "echo HI".toList ∧
    PassedCommandCheck
      (handleProcessCreation sampleRuntime cmdHost "cmd.exe".toList (some "echo hi".toList))
      (eventFileName cmdHost) ∧
    ¬ PassedCommandCheck
      (handleProcessCreation sampleRuntime cmdHost "cmd.exe".toList (some "foo".toList))
      (eventFileName cmdHost) ∧
    PassedCommandCheck
      (handleProcessCreation sampleRuntime cmdHost "cmd.exe".toList none)
      (eventFileName cmdHost) ∧
    CaseInsensitiveEq sampleRuntime "файл.exe".toList (eventFileName cyrillicHost) ∧
    PassedCommandCheck
      (handleProcessCreation sampleRuntime cyrillicHost "файл.exe".toList
        (some "café".toList))
      (eventFileName cyrillicHost) :=
  ⟨by decide, by decide, by decide, by decide,
    ((command_check_substring sampleRuntime cmdHost "cmd.exe".toList (some "echo hi".toList)
      (by decide)).2.2.2 "echo hi".toList rfl (by decide) (by decide)).mpr
      ⟨"echo HI".toList, by decide, by decide⟩,
    fun hp =>
      absurd ((command_check_substring sampleRuntime cmdHost "cmd.exe".toList
        (some "foo".toList) (by decide)).1.mp hp) (by decide),
    (command_check_substring sampleRuntime cmdHost "cmd.exe".toList none (by decide)).2.1 rfl,
    by decide,
    (command_check_substring sampleRuntime cyrillicHost "файл.exe".toList
      (some "café".toList) (by decide)).1.mpr (by decide)⟩

/-- C3: for every engine, filter and event, `handleProcessCreation` returns
`false`; when the event matches the name and the command-line filter it
executes exactly one command, the one-shot breakpoint
`bp /1 /p $proc /t $thread <ra> "dx @$scriptContents.handleProcessCreated(<rcx>, <rdx>)"`
built from the return address of stack frame 2 and the registers `rcx` and
`rdx`, and otherwise it executes nothing.  So at most one second-stage
breakpoint is armed per event. -/
theorem first_stage_result_and_commands (js : Runtime) (h : Host) (processName : Str)
    (processCommand : Option Str) :
    (handleProcessCreation js h processName processCommand).result = .ok false ∧
    ((EventMatches js h processName processCommand ∧
        (handleProcessCreation js h processName processCommand).executed =
          ["bp /1 /p $proc /t $thread ".toList ++ h.show64 (h.frameReturnOffset 2)
            ++ " \"dx @$scriptContents.handleProcessCreated(".toList ++ h.show64 h.rcx
            ++ ", ".toList ++ h.show64 h.rdx ++ ")\"".toList]) ∨
      (¬ EventMatches js h processName processCommand ∧
        (handleProcessCreation js h processName processCommand).executed = [])) ∧
    (handleProcessCreation js h processName processCommand).executed.length ≤ 1 ∧
    (handleProcessCreation sampleRuntime cmdHost "cmd.exe".toList none).executed =
      ["bp /1 /p $proc /t $thread 28674 \"dx @$scriptContents.handleProcessCreated(8192, 8200)\"".toList] ∧
    (handleProcessCreation sampleRuntime cyrillicHost "файл.exe".toList
        (some "café".toList)).executed =
      ["bp /1 /p $proc /t $thread 28674 \"dx @$scriptContents.handleProcessCreated(8192, 8200)\"".toList] := by
  refine ⟨?_, ?_, ?_, by decide, by decide⟩
  all_goals
    rcases event_cases js h processName processCommand with
      hn | ⟨hname, command, rfl, hc⟩ | hm
  · rw [handleProcessCreation_name_mismatch js h processName processCommand hn]
  · rw [handleProcessCreation_command_mismatch js h processName command hname hc]
  · rw [handleProcessCreation_match js h processName processCommand hm]
  · rw [handleProcessCreation_name_mismatch js h processName processCommand hn]
    exact Or.inr ⟨fun hm => hn hm.1, rfl⟩
  · rw [handleProcessCreation_command_mismatch js h processName command hname hc]
    refine Or.inr ⟨?_, rfl⟩
    rintro ⟨_, hnone | ⟨c, hsome, hcc⟩⟩
    · exact absurd hnone (by simp)
    · cases hsome; exact hc hcc
  · rw [handleProcessCreation_match js h processName processCommand hm]
    exact Or.inl ⟨hm, rfl⟩
  · rw [handleProcessCreation_name_mismatch js h processName processCommand hn]
    exact Nat.zero_le _
  · rw [handleProcessCreation_command_mismatch js h processName command hname hc]
    exact Nat.zero_le _
  · rw [handleProcessCreation_match js h processName processCommand hm]
    exact Nat.le_refl _

/-- C6, as the code has it: an event that fails the name check writes exactly
the one line `[+] New process: <fileName>`, a matched event writes exactly the
one line `[!] New process: <fileName>`, and an event whose name matches but
whose command line does not writes no line. -/
theorem first_stage_log_lines (js : Runtime) (h : Host) (processName : Str)
    (processCommand : Option Str) :
    (¬ CaseInsensitiveEq js processName (eventFileName h) ∧
      (handleProcessCreation js h processName processCommand).logged =
        ["[+] New process: ".toList ++ eventFileName h ++ "\n".toList]) ∨
    (EventMatches js h processName processCommand ∧
      (handleProcessCreation js h processName processCommand).logged =
        ["[!] New process: ".toList ++ eventFileName h ++ "\n".toList]) ∨
    (CaseInsensitiveEq js processName (eventFileName h) ∧
      ¬ CommandLineMatches js (eventCommandLine h) processCommand ∧
      (handleProcessCreation js h processName processCommand).logged = []) := by
  rcases event_cases js h processName processCommand with hn | ⟨hname, command, rfl, hc⟩ | hm
  · rw [handleProcessCreation_name_mismatch js h processName processCommand hn]
    exact Or.inl ⟨hn, rfl⟩
  · rw [handleProcessCreation_command_mismatch js h processName command hname hc]
    refine Or.inr (Or.inr ⟨hname, ?_, rfl⟩)
    rintro (hnone | ⟨c, hsome, hcc⟩)
    · exact absurd hnone (by simp)
    · cases hsome; exact hc hcc
  · rw [handleProcessCreation_match js h processName processCommand hm]
    exact Or.inr (Or.inl ⟨hm, rfl⟩)

/-- C6, as stated, fails: the event `CMD.EXE` with the command line
`C:\cmd.exe /c echo HI there` does not match the filter `("cmd.exe", "foo")`,
under any engine, and no line at all is written for it. -/
theorem unmatched_event_without_log_line :
    eventFileName cmdHost = "CMD.EXE".toList ∧
    eventCommandLine cmdHost = "C:\\cmd.exe /c echo HI there".toList ∧
    (handleProcessCreation sampleRuntime cmdHost "cmd.exe".toList
      (some "foo".toList)).executed = [] ∧
    (handleProcessCreation sampleRuntime cmdHost "cmd.exe".toList
      (some "foo".toList)).logged = [] := by
  decide

/-- C7: for every event whose file name matches `processName` and whose command
line does not contain the `processCommand` that is set, `handleProcessCreation`
returns `false`, writes no log line and executes no command, so that no
second-stage breakpoint is installed. -/
theorem command_mismatch_is_silent (js : Runtime) (h : Host) (processName command : Str)
    (hname : CaseInsensitiveEq js processName (eventFileName h))
    (hcmd : ¬ ContainsCaseInsensitive js (eventCommandLine h) command) :
    (handleProcessCreation js h processName (some command)).result = .ok false ∧
    (handleProcessCreation js h processName (some command)).logged = [] ∧
    (handleProcessCreation js h processName (some command)).executed = [] := by
  rw [handleProcessCreation_command_mismatch js h processName command hname hcmd]
  exact ⟨rfl, rfl, rfl⟩

/-- The filter `("cmd.exe", "foo")` against the command line
`C:\cmd.exe /c echo HI there`. -/
theorem command_mismatch_is_silent_witness :
    CaseInsensitiveEq sampleRuntime "cmd.exe".toList (eventFileName cmdHost) ∧
    ¬ ContainsCaseInsensitive sampleRuntime (eventCommandLine cmdHost) "foo".toList ∧
    (handleProcessCreation sampleRuntime cmdHost "cmd.exe".toList
      (some "foo".toList)).result = .ok false ∧
    (handleProcessCreation sampleRuntime cmdHost "cmd.exe".toList
      (some "foo".toList)).logged = [] ∧
    (handleProcessCreation sampleRuntime cmdHost "cmd.exe".toList
      (some "foo".toList)).executed = [] :=
  ⟨by decide, by decide,
    command_mismatch_is_silent sampleRuntime cmdHost "cmd.exe".toList "foo".toList
      (by decide) (by decide)⟩

/-! ## The second stage -/

theorem readMemoryValues_one (h : Host) (pHandle : Nat) :
    readMemoryValues h pHandle 1 8 = [h.memory (pHandle % 2 ^ 64) % 2 ^ 64] := by
  simp [readMemoryValues, List.range_succ]

theorem handleIndex_of_read (h : Host) (pHandle raw : Nat)
    (hread : readMemoryValues h pHandle 1 8 = [raw]) :
    handleIndex h pHandle = h.evaluateExpression (h.show64 raw ++ " & 0xFFFF".toList) := by
  unfold handleIndex maskExpression arrayText
  rw [hread]
  simp [List.intercalate]

theorem and_mask_eq_mod (raw : Nat) : raw &&& 0xFFFF = raw % 65536 := by
  rw [show (0xFFFF : Nat) = 2 ^ 16 - 1 from rfl, Nat.and_pow_two_sub_one_eq_mod]

theorem handleProcessCreated_eq (h : Host) (phProc phThrd hproc hthrd : Nat)
    (hp : handleIndex h phProc = some hproc) (ht : handleIndex h phThrd = some hthrd) :
    handleProcessCreated h phProc phThrd =
      match h.handles hproc with
      | none => ⟨.error (.handleNotFound hproc), [], []⟩
      | some eprocess =>
        match h.handles hthrd with
        | none => ⟨.error (.handleNotFound hthrd), [], []⟩
        | some kthread =>
          ⟨.ok (), [logLine (resolvedMessage h hproc eprocess hthrd kthread)],
            [thirdStageCommand h eprocess kthread (h.ethreadStartAddress kthread),
              resumeCommand]⟩ := by
  unfold handleProcessCreated
  rw [hp, ht]

theorem handleProcessCreated_resolved (h : Host)
    (phProc phThrd hproc hthrd eprocess kthread : Nat)
    (hp : handleIndex h phProc = some hproc) (ht : handleIndex h phThrd = some hthrd)
    (hi : h.handles hproc = some eprocess) (hj : h.handles hthrd = some kthread) :
    handleProcessCreated h phProc phThrd =
      ⟨.ok (), [logLine (resolvedMessage h hproc eprocess hthrd kthread)],
        [thirdStageCommand h eprocess kthread (h.ethreadStartAddress kthread),
          resumeCommand]⟩ := by
  rw [handleProcessCreated_eq h phProc phThrd hproc hthrd hp ht, hi]
  simp only [hj]

/-- C10: for every 64-bit raw handle value that `handleProcessCreated` reads,
the text `<raw> & 0xFFFF` is handed to the debugger, and with the debugger
evaluating it as the bitwise AND it denotes, the value that indexes the handle
table is `raw & 0xFFFF = raw mod 65536`: it lies in `[0, 65535]`, masking it
again changes nothing, and it is at this index, for the process and for the
thread, that the handle table is read. -/
theorem handle_mask_low_bits (h : Host) (phProc phThrd rawProc rawThrd : Nat)
    (hreadProc : readMemoryValues h phProc 1 8 = [rawProc])
    (hreadThrd : readMemoryValues h phThrd 1 8 = [rawThrd])
    (hevalProc : h.evaluateExpression (h.show64 rawProc ++ " & 0xFFFF".toList) =
      some (rawProc &&& 0xFFFF))
    (hevalThrd : h.evaluateExpression (h.show64 rawThrd ++ " & 0xFFFF".toList) =
      some (rawThrd &&& 0xFFFF)) :
    rawProc < 2 ^ 64 ∧ rawThrd < 2 ^ 64 ∧
    rawProc &&& 0xFFFF = rawProc % 65536 ∧ rawThrd &&& 0xFFFF = rawThrd % 65536 ∧
    rawProc % 65536 ≤ 65535 ∧ rawThrd % 65536 ≤ 65535 ∧
    (rawProc % 65536) &&& 0xFFFF = rawProc % 65536 ∧
    (rawThrd % 65536) &&& 0xFFFF = rawThrd % 65536 ∧
    handleIndex h phProc = some (rawProc % 65536) ∧
    handleIndex h phThrd = some (rawThrd % 65536) ∧
    (h.handles (rawProc % 65536) = none →
      (handleProcessCreated h phProc phThrd).result =
        .error (.handleNotFound (rawProc % 65536))) ∧
    (∀ eprocess : Nat, h.handles (rawProc % 65536) = some eprocess →
      h.handles (rawThrd % 65536) = none →
      (handleProcessCreated h phProc phThrd).result =
        .error (.handleNotFound (rawThrd % 65536))) ∧
    (∀ eprocess kthread : Nat, h.handles (rawProc % 65536) = some eprocess →
      h.handles (rawThrd % 65536) = some kthread →
      (handleProcessCreated h phProc phThrd).executed =
        ["bp /1 /p ".toList ++ h.show64 eprocess ++ " /t ".toList ++ h.show64 kthread
          ++ " ".toList ++ h.show64 (h.ethreadStartAddress kthread), "gc".toList]) := by
  have hp : handleIndex h phProc = some (rawProc % 65536) := by
    rw [handleIndex_of_read h phProc rawProc hreadProc, hevalProc, and_mask_eq_mod]
  have ht : handleIndex h phThrd = some (rawThrd % 65536) := by
    rw [handleIndex_of_read h phThrd rawThrd hreadThrd, hevalThrd, and_mask_eq_mod]
  have hlp : rawProc < 2 ^ 64 := by
    rw [readMemoryValues_one] at hreadProc
    have e := List.head_eq_of_cons_eq hreadProc
    rw [← e]; exact Nat.mod_lt _ (by norm_num)
  have hlt : rawThrd < 2 ^ 64 := by
    rw [readMemoryValues_one] at hreadThrd
    have e := List.head_eq_of_cons_eq hreadThrd
    rw [← e]; exact Nat.mod_lt _ (by norm_num)
  refine ⟨hlp, hlt, and_mask_eq_mod _, and_mask_eq_mod _, by omega, by omega, ?_, ?_, hp, ht,
    ?_, ?_, ?_⟩
  · rw [and_mask_eq_mod]; omega
  · rw [and_mask_eq_mod]; omega
  · intro hnone
    rw [handleProcessCreated_eq h phProc phThrd _ _ hp ht, hnone]
  · intro eprocess hsome hnone
    rw [handleProcessCreated_eq h phProc phThrd _ _ hp ht, hsome]
    simp only [hnone]
  · intro eprocess kthread hsp hst
    rw [handleProcessCreated_resolved h phProc phThrd _ _ eprocess kthread hp ht hsp hst]
    rfl

/-- The tagged kernel handle `0xFFFFFFFF80001234` and the handle `0x1238` of
`createdHost`: the handle table is read at `0x1234` and `0x1238`. -/
theorem handle_mask_low_bits_witness :
    readMemoryValues createdHost 0x2000 1 8 = [0xFFFFFFFF80001234] ∧
    readMemoryValues createdHost 0x2008 1 8 = [0x1238] ∧
    createdHost.evaluateExpression
      (createdHost.show64 0xFFFFFFFF80001234 ++ " & 0xFFFF".toList) =
        some (0xFFFFFFFF80001234 &&& 0xFFFF) ∧
    createdHost.evaluateExpression (createdHost.show64 0x1238 ++ " & 0xFFFF".toList) =
        some (0x1238 &&& 0xFFFF) ∧
    0xFFFFFFFF80001234 % 65536 = 0x1234 ∧
    handleIndex createdHost 0x2000 = some (0xFFFFFFFF80001234 % 65536) ∧
    handleIndex createdHost 0x2008 = some (0x1238 % 65536) ∧
    (handleProcessCreated createdHost 0x2000 0x2008).executed =
      ["bp /1 /p ".toList ++ createdHost.show64 0xA000 ++ " /t ".toList
        ++ createdHost.show64 0xB000 ++ " ".toList
        ++ createdHost.show64 (createdHost.ethreadStartAddress 0xB000), "gc".toList] := by
  obtain ⟨_, _, _, _, _, _, _, _, hproc, hthrd, _, _, hboth⟩ :=
    handle_mask_low_bits createdHost 0x2000 0x2008 0xFFFFFFFF80001234 0x1238
      (by decide) (by decide) (by decide) (by decide)
  exact ⟨by decide, by decide, by decide, by decide, by decide, hproc, hthrd,
    hboth 0xA000 0xB000 (by decide) (by decide)⟩

/-- C4: whenever both handles resolve, `handleProcessCreated` executes exactly
two commands, in this order: the one-shot breakpoint
`bp /1 /p <eprocess> /t <ethread address> <startAddress>` for the objects
behind the two masked handles and the `StartAddress` of that thread, then
`gc`; and it returns normally. -/
theorem second_stage_commands (h : Host) (phProc phThrd eprocess kthread : Nat)
    (hproc : (handleIndex h phProc).bind h.handles = some eprocess)
    (hthrd : (handleIndex h phThrd).bind h.handles = some kthread) :
    (handleProcessCreated h phProc phThrd).executed =
      ["bp /1 /p ".toList ++ h.show64 eprocess ++ " /t ".toList ++ h.show64 kthread
        ++ " ".toList ++ h.show64 (h.ethreadStartAddress kthread), "gc".toList] ∧
    (handleProcessCreated h phProc phThrd).result = .ok () := by
  cases hp : handleIndex h phProc with
  | none => rw [hp] at hproc; exact absurd hproc (by simp)
  | some i =>
    cases ht : handleIndex h phThrd with
    | none => rw [ht] at hthrd; exact absurd hthrd (by simp)
    | some j =>
      rw [hp, Option.some_bind] at hproc
      rw [ht, Option.some_bind] at hthrd
      rw [handleProcessCreated_resolved h phProc phThrd i j eprocess kthread hp ht hproc hthrd]
      exact ⟨rfl, rfl⟩

/-- Both handles of `createdHost` resolve, the process handle being a tagged
kernel handle; the two commands are spelled out. -/
theorem second_stage_commands_witness :
    (handleIndex createdHost 0x2000).bind createdHost.handles = some 0xA000 ∧
    (handleIndex createdHost 0x2008).bind createdHost.handles = some 0xB000 ∧
    createdHost.ethreadStartAddress 0xB000 = 0x401000 ∧
    ("bp /1 /p ".toList ++ createdHost.show64 0xA000 ++ " /t ".toList
        ++ createdHost.show64 0xB000 ++ " ".toList
        ++ createdHost.show64 (createdHost.ethreadStartAddress 0xB000)) =
      "bp /1 /p 40960 /t 45056 4198400".toList ∧
    (handleProcessCreated createdHost 0x2000 0x2008).executed =
      ["bp /1 /p ".toList ++ createdHost.show64 0xA000 ++ " /t ".toList
        ++ createdHost.show64 0xB000 ++ " ".toList
        ++ createdHost.show64 (createdHost.ethreadStartAddress 0xB000), "gc".toList] ∧
    (handleProcessCreated createdHost 0x2000 0x2008).result = .ok () :=
  ⟨by decide, by decide, by decide, by decide,
    second_stage_commands createdHost 0x2000 0x2008 0xA000 0xB000 (by decide) (by decide)⟩

/-- C5, as the code has it: when resolving either handle fails, no breakpoint
is installed and nothing is logged; the failure is not caught, so the
exception leaves `handleProcessCreated` and `gc` is not executed. -/
theorem stale_handle_propagates (h : Host) (phProc phThrd : Nat)
    (hfail : (handleIndex h phProc).bind h.handles = none ∨
      (handleIndex h phThrd).bind h.handles = none) :
    (handleProcessCreated h phProc phThrd).executed = [] ∧
    (handleProcessCreated h phProc phThrd).logged = [] ∧
    ∃ e : Thrown, (handleProcessCreated h phProc phThrd).result = .error e := by
  cases hp : handleIndex h phProc with
  | none =>
    unfold handleProcessCreated
    rw [hp]
    exact ⟨rfl, rfl, _, rfl⟩
  | some i =>
    cases ht : handleIndex h phThrd with
    | none =>
      unfold handleProcessCreated
      rw [hp, ht]
      exact ⟨rfl, rfl, _, rfl⟩
    | some j =>
      rw [hp, ht, Option.some_bind, Option.some_bind] at hfail
      rw [handleProcessCreated_eq h phProc phThrd i j hp ht]
      cases hi : h.handles i with
      | none => exact ⟨rfl, rfl, _, rfl⟩
      | some eprocess =>
        cases hj : h.handles j with
        | none => exact ⟨rfl, rfl, _, rfl⟩
        | some kthread =>
          rw [hi, hj] at hfail
          rcases hfail with hf | hf <;> exact absurd hf (by simp)

/-- The thread handle of `staleHost` is stale. -/
theorem stale_handle_propagates_witness :
    ((handleIndex staleHost 0x2000).bind staleHost.handles = none ∨
      (handleIndex staleHost 0x2008).bind staleHost.handles = none) ∧
    (handleProcessCreated staleHost 0x2000 0x2008).executed = [] ∧
    (handleProcessCreated staleHost 0x2000 0x2008).logged = [] ∧
    ∃ e : Thrown, (handleProcessCreated staleHost 0x2000 0x2008).result = .error e :=
  ⟨Or.inr (by decide),
    stale_handle_propagates staleHost 0x2000 0x2008 (Or.inr (by decide))⟩

/-- C5, as stated, fails: with the stale thread handle of `staleHost` the
command `gc` is not executed, and the exception of the failed lookup is the
result of `handleProcessCreated`. -/
theorem stale_handle_not_resumed :
    (handleIndex staleHost 0x2008).bind staleHost.handles = none ∧
    resumeCommand ∉ (handleProcessCreated staleHost 0x2000 0x2008).executed ∧
    (handleProcessCreated staleHost 0x2000 0x2008).result = .error (.handleNotFound 0x1238) :=
  ⟨by decide, by decide, rfl⟩

/-! ## Arming the watch -/

theorem readQuotedBody_readable (escapes : Bool) (s rest : Str) (hs : Readable escapes s) :
    readQuotedBody escapes (s ++ dquote :: rest) = some (s, rest) := by
  induction s with
  | nil => unfold readQuotedBody; simp
  | cons c cs ih =>
    obtain ⟨hq, hb⟩ := hs
    simp only [List.mem_cons, not_or] at hq
    have hcq : c ≠ dquote := fun e => hq.1 e.symm
    have hcb : ¬ (escapes = true ∧ c = backslash) := by
      rintro ⟨he, hc⟩
      exact hb he (hc ▸ List.mem_cons_self c cs)
    have hcs : Readable escapes cs :=
      ⟨hq.2, fun he hm => hb he (List.mem_cons_of_mem c hm)⟩
    rw [List.cons_append]
    unfold readQuotedBody
    simp only [hcq, hcb, if_false, ih hcs, Option.map_some']

theorem readQuoted_readable (escapes : Bool) (s rest : Str) (hs : Readable escapes s) :
    readQuoted escapes ([dquote] ++ s ++ dquote :: rest) = some (s, rest) := by
  simp only [List.singleton_append, List.cons_append, readQuoted, if_true]
  exact readQuotedBody_readable escapes s rest hs

theorem readArgs_one (escapes : Bool) (s : Str) (hs : Readable escapes s) :
    readArgs escapes ([dquote] ++ s ++ [dquote]) = some [s] := by
  unfold readArgs
  rw [show ([dquote] ++ s ++ [dquote]).length = (s.length + 1) + 1 by
    simp only [List.length_append, List.length_singleton]; omega]
  unfold readArgsUpTo
  rw [readQuoted_readable escapes s [] hs]

theorem readArgsUpTo_one (escapes : Bool) (n : Nat) (s : Str) (hs : Readable escapes s) :
    readArgsUpTo escapes (n + 1) ([dquote] ++ s ++ [dquote]) = some [s] := by
  unfold readArgsUpTo
  rw [readQuoted_readable escapes s [] hs]

theorem readArgs_two (escapes : Bool) (s t : Str) (hs : Readable escapes s)
    (ht : Readable escapes t) :
    readArgs escapes
      ([dquote] ++ s ++ dquote :: (Char.ofNat 44 :: Char.ofNat 32 ::
        ([dquote] ++ t ++ [dquote]))) = some [s, t] := by
  unfold readArgs
  obtain ⟨n, hn⟩ : ∃ n, ([dquote] ++ s ++ dquote :: (Char.ofNat 44 :: Char.ofNat 32 ::
      ([dquote] ++ t ++ [dquote]))).length = n + 2 := by
    refine ⟨s.length + (t.length + 4), ?_⟩
    simp only [List.length_append, List.length_singleton, List.length_cons, List.length_nil]
    omega
  rw [hn]
  unfold readArgsUpTo
  rw [readQuoted_readable escapes s _ hs]
  simp only [and_self, if_true, readArgsUpTo_one escapes n t ht, Option.map_some']

theorem quote_text : "\"".toList = [dquote] := rfl

theorem comma_blank_text : ", ".toList = [Char.ofNat 44, Char.ofNat 32] := rfl

/-- C8, as the code has it: for every `processName` and `processCommand` the
condition text is `@$scriptContents.handleProcessCreation(<args>)`, where
`<args>` is `processName` between double quotes exactly as it is, without any
escaping, followed, when `processCommand` is set, by a comma, a blank and
`processCommand` between double quotes exactly as it is; with
`processCommand` absent there is exactly one argument.  The arguments read
back as exactly the strings given whenever these hold no double quote (and no
backslash, for a reader that takes the backslash as an escape). -/
theorem condition_text_unescaped (processName : Str) (processCommand : Option Str) :
    (breakOnProcess processName processCommand).1.Condition =
      "@$scriptContents.handleProcessCreation(".toList ++ "\"".toList ++ processName
        ++ "\"".toList
        ++ (match processCommand with
          | none => []
          | some command =>
            if command = [] then []
            else ", ".toList ++ "\"".toList ++ command ++ "\"".toList)
        ++ ")".toList ∧
    (breakOnProcess processName none).1.Condition =
      "@$scriptContents.handleProcessCreation(".toList ++ "\"".toList ++ processName
        ++ "\")".toList ∧
    (∀ escapes : Bool, Readable escapes processName →
      (∀ command : Str, processCommand = some command → Readable escapes command) →
      readArgs escapes
          ("\"".toList ++ processName ++ "\"".toList
            ++ (match processCommand with
              | none => []
              | some command =>
                if command = [] then []
                else ", ".toList ++ "\"".toList ++ command ++ "\"".toList)) =
        some (processName ::
          (match processCommand with
            | none => []
            | some command => if command = [] then [] else [command]))) := by
  refine ⟨?_, ?_, ?_⟩
  · cases processCommand with
    | none =>
      simp only [breakOnProcess, conditionArgs, conditionHead, truthy, quote_text,
        Bool.false_eq_true, if_false, List.append_assoc, List.nil_append]
    | some command =>
      cases command with
      | nil =>
        simp only [breakOnProcess, conditionArgs, conditionHead, truthy, quote_text,
          List.isEmpty_nil, Bool.not_true, Bool.false_eq_true, if_false, if_true,
          List.append_assoc, List.nil_append]
      | cons c cs =>
        simp only [breakOnProcess, conditionArgs, conditionHead, truthy, quote_text,
          List.isEmpty_cons, Bool.not_false, if_true, Option.getD_some,
          List.append_assoc, reduceCtorEq, if_false]
  · simp only [breakOnProcess, conditionArgs, conditionHead, truthy, quote_text,
      Bool.false_eq_true, if_false, List.append_assoc]
    rfl
  · intro escapes hname hcmd
    cases processCommand with
    | none =>
      simp only [quote_text, List.append_nil]
      exact readArgs_one escapes processName hname
    | some command =>
      cases command with
      | nil =>
        simp only [quote_text, if_true, List.append_nil]
        exact readArgs_one escapes processName hname
      | cons c cs =>
        simp only [quote_text, comma_blank_text, reduceCtorEq, if_false]
        have e : [dquote] ++ processName ++ [dquote] ++
            ([Char.ofNat 44, Char.ofNat 32] ++ [dquote] ++ c :: cs ++ [dquote]) =
            [dquote] ++ processName ++ dquote :: (Char.ofNat 44 :: Char.ofNat 32 ::
              ([dquote] ++ (c :: cs) ++ [dquote])) := by
          simp
        rw [e]
        exact readArgs_two escapes processName (c :: cs) hname (hcmd _ rfl)

/-- The filter `("cmd.exe", "echo hi")`: its condition text, and its two
strings read back under both readings of the backslash. -/
theorem condition_text_unescaped_witness :
    Readable true "cmd.exe".toList ∧ Readable true "echo hi".toList ∧
    (breakOnProcess "cmd.exe".toList (some "echo hi".toList)).1.Condition =
      "@$scriptContents.handleProcessCreation(\"cmd.exe\", \"echo hi\")".toList ∧
    readArgs true "\"cmd.exe\", \"echo hi\"".toList =
      some ["cmd.exe".toList, "echo hi".toList] ∧
    readArgs true
        ("\"".toList ++ "cmd.exe".toList ++ "\"".toList
          ++ (match some "echo hi".toList with
            | none => []
            | some command =>
              if command = [] then []
              else ", ".toList ++ "\"".toList ++ command ++ "\"".toList)) =
      some ("cmd.exe".toList ::
        (match some "echo hi".toList with
          | none => []
          | some command => if command = [] then [] else [command])) :=
  ⟨by decide, by decide, by decide, by decide,
    (condition_text_unescaped "cmd.exe".toList (some "echo hi".toList)).2.2 true
      (by decide) (fun command hc => by cases hc; decide)⟩

/-- C8, as stated, fails: the name `a", "b` given alone is written as
`"a", "b"`, the very text written for the name `a` with the command `b`, so
no reader can give back the strings of both filters; reading a backslash as
an escape or not, the text reads back as the two strings `a` and `b`. -/
theorem condition_does_not_escape :
    (breakOnProcess "a\", \"b".toList none).1.Condition =
      "@$scriptContents.handleProcessCreation(\"a\", \"b\")".toList ∧
    (breakOnProcess "a".toList (some "b".toList)).1.Condition =
      "@$scriptContents.handleProcessCreation(\"a\", \"b\")".toList ∧
    givenArgs "a\", \"b".toList none ≠ givenArgs "a".toList (some "b".toList) ∧
    readArgs true (conditionArgs "a\", \"b".toList none) ≠
      some (givenArgs "a\", \"b".toList none) ∧
    readArgs false (conditionArgs "a\", \"b".toList none) ≠
      some (givenArgs "a\", \"b".toList none) := by
  decide

end BreakOnProcess
